import Mathlib

/-!
Shallow embedding of the Pylontech BMS frame codec from
`src/pylontech/pylontech.py`, together with theorems settling the
specification claims about it.

Modelling conventions:
* a Python `bytes` value is a `List Nat` (each element 0–255 where the
  code produces bytes);
* Python unbounded `int` arithmetic is `Int`/`Nat` arithmetic; Python
  `~s` is `-s - 1`, Python `%` on a positive modulus is `Int.emod`
  (non-negative remainder);
* the Python `float` values produced by the exact decimal scalings
  (`/10`, `/100`, `/1000`, the Celsius offset) are modelled as `ℚ`;
* Python exceptions raised during decoding (`AssertionError` on the
  checksum `assert`, `ValueError` from `int(..., 16)`/`bytes.fromhex`,
  `construct.StreamError` on premature end of input,
  `ZeroDivisionError` from float division by zero) are modelled by an
  explicit error type: decoders return `Except DecodeErr _` / `Option`.
-/

set_option maxRecDepth 40000
set_option maxHeartbeats 1600000

namespace Pylontech

/-- Error outcomes of the decoders, naming the Python exception that the
source raises in the corresponding situation. -/
inductive DecodeErr where
  /-- the `assert` in `_decode_hw_frame` fails -/
  | checksumMismatch
  /-- `int(..., 16)` or `bytes.fromhex` raises a `ValueError` -/
  | formatError
  /-- `construct` runs out of stream bytes parsing the fixed header -/
  | incompleteFrame
  /-- `construct` fails parsing a payload schema: the stream runs out,
  or an array count is negative (`construct.RangeError`) -/
  | schemaViolation
  /-- Python raises `ZeroDivisionError` in a computed field -/
  | divisionByZero
deriving Repr, DecidableEq

instance {ε α : Type} [DecidableEq ε] [DecidableEq α] : DecidableEq (Except ε α) := fun a b =>
  match a, b with
  | .error x, .error y =>
    if h : x = y then .isTrue (by rw [h]) else .isFalse (by simp [h])
  | .ok x, .ok y =>
    if h : x = y then .isTrue (by rw [h]) else .isFalse (by simp [h])
  | .error _, .ok _ => .isFalse (by simp)
  | .ok _, .error _ => .isFalse (by simp)

/-! ## Frame checksum (`Pylontech.get_frame_checksum`)

The source sums the bytes of `frame`, applies Python `~` (bitwise not of
an unbounded int, i.e. `-s - 1`), reduces with `%= 0x10000`, then adds 1
and returns the result without any further reduction. -/

/-- Model of `get_frame_checksum(frame)` from the source. -/
def get_frame_checksum (frame : List Nat) : Nat :=
  (((-(frame.sum : Int) - 1) % 65536) + 1).toNat

/-! ## Info-length field (`Pylontech.get_info_length`) -/

/-- The nibble sum the source computes:
`(lenid & 0xf) + ((lenid >> 4) & 0xf) + ((lenid >> 8) & 0xf)`. -/
def lenNibbleSum (lenid : Nat) : Nat :=
  lenid % 16 + lenid / 16 % 16 + lenid / 256 % 16

/-- Model of `get_info_length(info)` from the source.  Note the source computes
`0b1111 - lenid_modulo + 1` with no final reduction mod 16. -/
def get_info_length (info : List Nat) : Nat :=
  let lenid := info.length
  if lenid = 0 then 0
  else
    let lenid_modulo := lenNibbleSum lenid % 16
    let lenid_invert_plus_one := 15 - lenid_modulo + 1
    lenid_invert_plus_one * 4096 + lenid

/-! ## ASCII-hex formatting (`"{:02X}".format`, `"{:04X}".format`)

Python `"{:0wX}".format(n)` prints `n` in uppercase hexadecimal,
zero-padded on the left to width `w`, using more than `w` digits when
`n` does not fit.  `hexDigitsRev` produces the hex digits of `n` least
significant first (fuel-based so that the kernel can evaluate it;
`n` itself is always enough fuel since `n / 16 < n`). -/

def hexDigitsRevAux : Nat → Nat → List Nat
  | _, 0 => []
  | 0, _ + 1 => []
  | fuel + 1, n + 1 => ((n + 1) % 16) :: hexDigitsRevAux fuel ((n + 1) / 16)

def hexDigitsRev (n : Nat) : List Nat := hexDigitsRevAux n n

/-- Digit values of `n` in base 16, most significant first, zero-padded
on the left to width `w` (and `[0]` for `n = 0` before padding). -/
def padDigits (w n : Nat) : List Nat :=
  let ds := (hexDigitsRev n).reverse
  let ds := if ds = [] then [0] else ds
  List.replicate (w - ds.length) 0 ++ ds

/-- ASCII code of the uppercase hex digit for a value `d < 16`. -/
def toHexDigit (d : Nat) : Nat :=
  if d < 10 then 48 + d else 55 + d

/-- Model of `"{:0wX}".format(n).encode()`: the ASCII bytes of `n` in uppercase
hex, left-padded with `'0'` to width `w`. -/
def hexFormat (w n : Nat) : List Nat :=
  (padDigits w n).map toHexDigit

/-! ## ASCII-hex parsing (`int(s, 16)` and `bytes.fromhex`)

Both are modelled on hex digits only (the Python originals additionally
tolerate some whitespace/sign forms that never occur in this protocol's
frames; on pure hex-digit inputs the models agree with Python). -/

/-- Value of one ASCII hex digit (`0-9`, `A-F`, `a-f`). -/
def hexDigitVal (c : Nat) : Option Nat :=
  if 48 ≤ c ∧ c ≤ 57 then some (c - 48)
  else if 65 ≤ c ∧ c ≤ 70 then some (c - 55)
  else if 97 ≤ c ∧ c ≤ 102 then some (c - 87)
  else none

/-- Model of `int(s, 16)` on a byte string of hex digits; `none` models the
`ValueError` on an empty or non-hex string. -/
def parseHex (l : List Nat) : Option Nat :=
  match l with
  | [] => none
  | _ => l.foldlM (fun acc c => (hexDigitVal c).map (fun d => acc * 16 + d)) 0

/-- Model of `bytes.fromhex`: decodes pairs of hex digits into bytes; `none`
models the `ValueError` on odd length or non-hex characters. -/
def hexPairs : List Nat → Option (List Nat)
  | [] => some []
  | [_] => none
  | a :: b :: rest =>
    match hexDigitVal a, hexDigitVal b, hexPairs rest with
    | some d1, some d2, some r => some ((16 * d1 + d2) :: r)
    | _, _, _ => none

/-! ## Frame encode (`Pylontech._encode_cmd`) -/

/-- The header-plus-info byte string the source calls `frame` inside
`_encode_cmd`: `"{:02X}{:02X}{:02X}{:02X}{:04X}".format(0x20, address,
0x46, cid2, info_length).encode() + info`.  Note `info` is appended as
raw bytes, not re-hex-encoded. -/
def frame_body (address cid2 : Nat) (info : List Nat) : List Nat :=
  hexFormat 2 32 ++ hexFormat 2 address ++ hexFormat 2 70 ++ hexFormat 2 cid2 ++
    hexFormat 4 (get_info_length info) ++ info

/-- Model of `_encode_cmd(address, cid2, info)`:
`b"~" + frame + "{:04X}".format(frame_chksum).encode() + b"\r"`. -/
def encode_cmd (address cid2 : Nat) (info : List Nat) : List Nat :=
  126 :: (frame_body address cid2 info ++
    hexFormat 4 (get_frame_checksum (frame_body address cid2 info)) ++ [13])

/-! ## Hardware-frame decode (`Pylontech._decode_hw_frame`)

`frame_data = raw_frame[1:len(raw_frame)-5]`,
`frame_chksum = raw_frame[len(raw_frame)-5:-1]`, then
`assert get_frame_checksum(frame_data) == int(frame_chksum, 16)`.
The slices are modelled for `len(raw_frame) ≥ 6`, the shape of every
frame considered here. -/

def decode_hw_frame (raw : List Nat) : Except DecodeErr (List Nat) :=
  let frame_data := (raw.drop 1).take (raw.length - 6)
  let frame_chksum := (raw.drop (raw.length - 5)).take 4
  match parseHex frame_chksum with
  | none => .error .formatError
  | some v =>
    if get_frame_checksum frame_data = v then .ok frame_data
    else .error .checksumMismatch

/-! ## Header/info decode (`Pylontech._decode_frame`)

The `construct` struct reads, in order, `HexToByte(Array(2, Byte))`
for `ver`, `adr`, `cid1`, `cid2`, `HexToByte(Array(4, Byte))` for
`infolength`, then `HexToByte(GreedyRange(Byte))` for `info`: each
field is a fixed-width run of ASCII characters decoded with
`bytes.fromhex`, and `info` is the hex decode of every remaining
character. -/

structure PFrame where
  ver : List Nat
  adr : List Nat
  cid1 : List Nat
  cid2 : List Nat
  infolength : List Nat
  info : List Nat
deriving Repr, DecidableEq

def decode_frame (frame : List Nat) : Except DecodeErr PFrame :=
  if frame.length < 12 then .error .incompleteFrame
  else
    match hexPairs (frame.take 2), hexPairs ((frame.drop 2).take 2),
        hexPairs ((frame.drop 4).take 2), hexPairs ((frame.drop 6).take 2),
        hexPairs ((frame.drop 8).take 4), hexPairs (frame.drop 12) with
    | some v, some a, some c1, some c2, some il, some inf =>
      .ok ⟨v, a, c1, c2, il, inf⟩
    | _, _, _, _, _, _ => .error .formatError

/-- Full decode as used in `read_frame`: `_decode_hw_frame` followed by
`_decode_frame`. -/
def decode (raw : List Nat) : Except DecodeErr PFrame :=
  match decode_hw_frame raw with
  | .error e => .error e
  | .ok frame => decode_frame frame

/-- The `(address, command, info)` view of a successful decode, for stating
round-trip properties. -/
def decodedTriple (raw : List Nat) : Option (List Nat × List Nat × List Nat) :=
  match decode raw with
  | .ok f => some (f.adr, f.cid2, f.info)
  | .error _ => none

/-! ## Numeric adapters

The `construct.Adapter` subclasses of the source.  Each maps a parsed
integer to a physical value; the exact decimal divisions are modelled
in `ℚ`. -/

def ToVolt (n : Int) : ℚ := (n : ℚ) / 1000

def ToAmp (n : Int) : ℚ := (n : ℚ) / 10

def ToCelsius (n : Int) : ℚ := ((n : ℚ) - 2731) / 10

def DivideBy1000 (n : Nat) : ℚ := (n : ℚ) / 1000

/-! ## Cursor readers for the binary payload schemas

`construct` reads from a byte stream; each reader takes the remaining
bytes and returns the parsed value plus the rest, `none` modelling a
`StreamError` when the stream runs out. -/

def readByte : List Nat → Option (Nat × List Nat)
  | b :: rest => some (b, rest)
  | [] => none

/-- Reader for `construct.Int16ub`: big-endian unsigned 16-bit. -/
def readInt16ub : List Nat → Option (Nat × List Nat)
  | a :: b :: rest => some (256 * a + b, rest)
  | _ => none

/-- Reader for `construct.Int16sb`: big-endian two's-complement signed 16-bit. -/
def readInt16sb : List Nat → Option (Int × List Nat)
  | a :: b :: rest =>
    let v := 256 * a + b
    some (if 32768 ≤ v then (v : Int) - 65536 else (v : Int), rest)
  | _ => none

/-- Reader for `construct.Int24ub`: big-endian unsigned 24-bit. -/
def readInt24ub : List Nat → Option (Nat × List Nat)
  | a :: b :: c :: rest => some (65536 * a + 256 * b + c, rest)
  | _ => none

/-- Reader for `ToVolt(Int16sb)` (cell voltages). -/
def readVoltS (c : List Nat) : Option (ℚ × List Nat) :=
  match readInt16sb c with
  | none => none
  | some (v, rest) => some (ToVolt v, rest)

/-- Reader for `ToVolt(Int16ub)` (module voltage). -/
def readVoltU (c : List Nat) : Option (ℚ × List Nat) :=
  match readInt16ub c with
  | none => none
  | some (v, rest) => some (ToVolt (v : Int), rest)

/-- Reader for `ToCelsius(Int16sb)`. -/
def readCelsius (c : List Nat) : Option (ℚ × List Nat) :=
  match readInt16sb c with
  | none => none
  | some (v, rest) => some (ToCelsius v, rest)

/-- Reader for `ToAmp(Int16sb)`. -/
def readAmp (c : List Nat) : Option (ℚ × List Nat) :=
  match readInt16sb c with
  | none => none
  | some (v, rest) => some (ToAmp v, rest)

/-- Reader for `DivideBy1000(Int16ub)` (legacy 16-bit capacities). -/
def readCap16 (c : List Nat) : Option (ℚ × List Nat) :=
  match readInt16ub c with
  | none => none
  | some (v, rest) => some (DivideBy1000 v, rest)

/-- Reader for `DivideBy1000(Int24ub)` (extended 24-bit capacities). -/
def readCap24 (c : List Nat) : Option (ℚ × List Nat) :=
  match readInt24ub c with
  | none => none
  | some (v, rest) => some (DivideBy1000 v, rest)

/-- Reader for `construct.Array(n, sub)`: `n` consecutive reads. -/
def readN {α : Type} (rd : List Nat → Option (α × List Nat)) :
    Nat → List Nat → Option (List α × List Nat)
  | 0, c => some ([], c)
  | n + 1, c =>
    match rd c with
    | none => none
    | some (x, c1) =>
      match readN rd n c1 with
      | none => none
      | some (xs, c2) => some (x :: xs, c2)

/-! ## Module telemetry schema

One entry of the `Module` array of `get_values_fmt` (the same field
sequence appears inline in `get_values_single_fmt`).  The source's
hidden fields `_RemainingCapacity1`, `_UserDefinedItems`,
`_TotalCapacity1`, `_OptionalFields` are kept (without the leading
underscore); `RemainingCapacity`/`TotalCapacity` are the source's
`Computed` dispatchers. -/

structure ModuleData where
  NumberOfCells : Nat
  CellVoltages : List ℚ
  NumberOfTemperatures : Nat
  AverageBMSTemperature : ℚ
  GroupedCellsTemperatures : List ℚ
  Current : ℚ
  Voltage : ℚ
  Power : ℚ
  RemainingCapacity1 : ℚ
  UserDefinedItems : Nat
  TotalCapacity1 : ℚ
  CycleNumber : Nat
  OptionalFields : Option (ℚ × ℚ)
  RemainingCapacity : ℚ
  TotalCapacity : ℚ
deriving Repr, DecidableEq

/-- One module of `get_values_fmt`, in source field order:
`NumberOfCells`, `CellVoltages` (`NumberOfCells` entries),
`NumberOfTemperatures`, `AverageBMSTemperature`,
`GroupedCellsTemperatures` (`NumberOfTemperatures - 1` entries),
`Current`, `Voltage`, computed `Power = Current * Voltage`,
`_RemainingCapacity1`, `_UserDefinedItems`, `_TotalCapacity1`,
`CycleNumber`, then `construct.If(this._UserDefinedItems > 2, ...)` —
two further `DivideBy1000(Int24ub)` fields.  The `If` and the two
`Computed` dispatchers (`RemainingCapacity`, `TotalCapacity`) are
modelled by the single branch on `2 < udi`.

The `GroupedCellsTemperatures` count is the Python int
`this.NumberOfTemperatures - 1`, which is `-1` when
`NumberOfTemperatures = 0`; `construct.Array` raises `RangeError` on a
negative count, so that case fails (`none`) instead of parsing an
empty array. -/
def parseModule (c0 : List Nat) : Option (ModuleData × List Nat) :=
  match readByte c0 with
  | none => none
  | some (nCells, c1) =>
   match readN readVoltS nCells c1 with
   | none => none
   | some (cellVoltages, c2) =>
    match readByte c2 with
    | none => none
    | some (nTemps, c3) =>
     match readCelsius c3 with
     | none => none
     | some (avgTemp, c4) =>
      if nTemps = 0 then none
      else
      match readN readCelsius (nTemps - 1) c4 with
      | none => none
      | some (groupedTemps, c5) =>
       match readAmp c5 with
       | none => none
       | some (current, c6) =>
        match readVoltU c6 with
        | none => none
        | some (voltage, c7) =>
         match readCap16 c7 with
         | none => none
         | some (remCap1, c8) =>
          match readByte c8 with
          | none => none
          | some (udi, c9) =>
           match readCap16 c9 with
           | none => none
           | some (totCap1, c10) =>
            match readInt16ub c10 with
            | none => none
            | some (cyc, c11) =>
             if 2 < udi then
              match readCap24 c11 with
              | none => none
              | some (r2, ca) =>
               match readCap24 ca with
               | none => none
               | some (t2, cb) =>
                some (⟨nCells, cellVoltages, nTemps, avgTemp, groupedTemps,
                  current, voltage, current * voltage, remCap1, udi, totCap1,
                  cyc, some (r2, t2), r2, t2⟩, cb)
             else
              some (⟨nCells, cellVoltages, nTemps, avgTemp, groupedTemps,
                current, voltage, current * voltage, remCap1, udi, totCap1,
                cyc, none, remCap1, totCap1⟩, c11)

/-- Result of `get_values_fmt`. -/
structure ValuesReport where
  NumberOfModules : Nat
  Module : List ModuleData
  TotalPower : ℚ
  StateOfCharge : ℚ
deriving Repr, DecidableEq

/-- Model of `get_values_fmt.parse`: a module count byte, that many modules, then
the computed aggregates
`TotalPower = sum([x.Power for x in this.Module])` and
`StateOfCharge = sum([x.RemainingCapacity ...]) / sum([x.TotalCapacity ...])`.
Python float division raises `ZeroDivisionError` on a zero divisor, so a
zero capacity sum yields `DecodeErr.divisionByZero` and no record. -/
def parse_values_body (info : List Nat) : Option (Nat × List ModuleData) := do
  let (n, c1) ← readByte info
  let (mods, _) ← readN parseModule n c1
  pure (n, mods)

def parse_get_values (info : List Nat) : Except DecodeErr ValuesReport :=
  match parse_values_body info with
  | none => .error .schemaViolation
  | some (n, mods) =>
    let totalPower := (mods.map (fun m => m.Power)).sum
    let socDen := (mods.map (fun m => m.TotalCapacity)).sum
    if socDen = 0 then .error .divisionByZero
    else .ok ⟨n, mods, totalPower,
      (mods.map (fun m => m.RemainingCapacity)).sum / socDen⟩

/-- Result of `get_values_single_fmt`.  The source declares the module
fields inline after `NumberOfModule`; they are grouped here in `Module`
(the field sequence and order are identical to one `get_values_fmt`
module). -/
structure SingleValuesReport where
  NumberOfModule : Nat
  Module : ModuleData
  TotalPower : ℚ
  StateOfCharge : ℚ
deriving Repr, DecidableEq

/-- Model of `get_values_single_fmt.parse`: `TotalPower = this.Power` and
`StateOfCharge = this.RemainingCapacity / this.TotalCapacity`, with
Python's `ZeroDivisionError` modelled as for `parse_get_values`. -/
def parse_values_single_body (info : List Nat) : Option (Nat × ModuleData) := do
  let (nm, c1) ← readByte info
  let (m, _) ← parseModule c1
  pure (nm, m)

def parse_get_values_single (info : List Nat) : Except DecodeErr SingleValuesReport :=
  match parse_values_single_body info with
  | none => .error .schemaViolation
  | some (nm, m) =>
    if m.TotalCapacity = 0 then .error .divisionByZero
    else .ok ⟨nm, m, m.Power, m.RemainingCapacity / m.TotalCapacity⟩

/-! ## Concrete example payloads

Minimal module byte strings (no cells, `NumberOfTemperatures = 1` so
the grouped-temperatures array is empty) used to evaluate the payload
decoders on concrete inputs.  `extCapBytes` has `_UserDefinedItems = 3`
and 24-bit capacities 50000/100000 (50 Ah and 100 Ah after the
divide-by-1000); `socModule2Bytes` likewise with 30000/100000;
`zeroCapPayload` has `_UserDefinedItems = 2` and a zero legacy total
capacity. -/

def extCapBytes : List Nat :=
  [0, 1, 0, 0, 0, 0, 0, 0, 0, 0, 3, 0, 0, 0, 0, 0, 195, 80, 1, 134, 160]

def extCapModule : ModuleData :=
  ⟨0, [], 1, ToCelsius 0, [], ToAmp 0, ToVolt 0, ToAmp 0 * ToVolt 0,
    DivideBy1000 0, 3, DivideBy1000 0, 0,
    some (DivideBy1000 50000, DivideBy1000 100000),
    DivideBy1000 50000, DivideBy1000 100000⟩

def socModule2Bytes : List Nat :=
  [0, 1, 0, 0, 0, 0, 0, 0, 0, 0, 3, 0, 0, 0, 0, 0, 117, 48, 1, 134, 160]

def socModule2 : ModuleData :=
  ⟨0, [], 1, ToCelsius 0, [], ToAmp 0, ToVolt 0, ToAmp 0 * ToVolt 0,
    DivideBy1000 0, 3, DivideBy1000 0, 0,
    some (DivideBy1000 30000, DivideBy1000 100000),
    DivideBy1000 30000, DivideBy1000 100000⟩

/-- A two-module `get_values` payload with remaining capacities 50/30
and total capacities 100/100. -/
def socPayload : List Nat := 2 :: (extCapBytes ++ socModule2Bytes)

/-- The record `get_values_fmt` produces on `socPayload`. -/
def socReport : ValuesReport :=
  ⟨2, [extCapModule, socModule2],
    ([extCapModule, socModule2].map (fun m => m.Power)).sum,
    ([extCapModule, socModule2].map (fun m => m.RemainingCapacity)).sum /
      ([extCapModule, socModule2].map (fun m => m.TotalCapacity)).sum⟩

def zeroCapPayload : List Nat :=
  [1, 0, 1, 0, 0, 0, 0, 0, 0, 0, 0, 2, 0, 0, 0, 0]

def zeroCapModule : ModuleData :=
  ⟨0, [], 1, ToCelsius 0, [], ToAmp 0, ToVolt 0, ToAmp 0 * ToVolt 0,
    DivideBy1000 0, 2, DivideBy1000 0, 0, none,
    DivideBy1000 0, DivideBy1000 0⟩

end Pylontech

namespace Pylontech

/-! ## Facts about hex formatting and parsing -/

lemma hexDigitsRevAux_congr (n : Nat) :
    ∀ f1 f2, n ≤ f1 → n ≤ f2 → hexDigitsRevAux f1 n = hexDigitsRevAux f2 n := by
  induction n using Nat.strong_induction_on with
  | _ n ih =>
    intro f1 f2 h1 h2
    cases n with
    | zero => simp [hexDigitsRevAux]
    | succ m =>
      cases f1 with
      | zero => omega
      | succ g1 =>
        cases f2 with
        | zero => omega
        | succ g2 =>
          simp only [hexDigitsRevAux]
          exact congrArg (List.cons _)
            (ih ((m + 1) / 16) (by omega) g1 g2 (by omega) (by omega))

lemma hexDigitsRev_zero : hexDigitsRev 0 = [] := rfl

lemma hexDigitsRev_eq (n : Nat) (h : n ≠ 0) :
    hexDigitsRev n = n % 16 :: hexDigitsRev (n / 16) := by
  cases n with
  | zero => exact absurd rfl h
  | succ m =>
    show hexDigitsRevAux (m + 1) (m + 1) = _
    simp only [hexDigitsRevAux]
    exact congrArg (List.cons _)
      (hexDigitsRevAux_congr ((m + 1) / 16) m ((m + 1) / 16) (by omega) (by omega))

lemma hexDigitsRev_nil_iff (n : Nat) : hexDigitsRev n = [] ↔ n = 0 := by
  constructor
  · intro h
    by_contra h0
    rw [hexDigitsRev_eq n h0] at h
    exact List.cons_ne_nil _ _ h
  · intro h; rw [h]; rfl

lemma mem_hexDigitsRev_lt (n : Nat) : ∀ d ∈ hexDigitsRev n, d < 16 := by
  induction n using Nat.strong_induction_on with
  | _ n ih =>
    intro d hd
    by_cases h0 : n = 0
    · rw [h0] at hd; exact absurd hd (List.not_mem_nil d)
    · rw [hexDigitsRev_eq n h0] at hd
      rcases List.mem_cons.mp hd with h | h
      · omega
      · exact ih (n / 16) (by omega) d h

lemma hexDigitsRev_length_le : ∀ (k n : Nat), n < 16 ^ k → (hexDigitsRev n).length ≤ k := by
  intro k
  induction k with
  | zero =>
    intro n hn
    have : n = 0 := by simpa using hn
    simp [this, hexDigitsRev_zero]
  | succ k ih =>
    intro n hn
    by_cases h0 : n = 0
    · simp [h0, hexDigitsRev_zero]
    · rw [hexDigitsRev_eq n h0]
      have : n / 16 < 16 ^ k := by
        rw [Nat.div_lt_iff_lt_mul (by norm_num)]
        calc n < 16 ^ (k + 1) := hn
        _ = 16 ^ k * 16 := by ring
      simpa using ih (n / 16) this

lemma padDigits_ne_nil (w n : Nat) : padDigits w n ≠ [] := by
  unfold padDigits
  by_cases h : (hexDigitsRev n).reverse = [] <;> simp [h]

lemma padDigits_length (w n : Nat) (h1 : 1 ≤ w) (h2 : n < 16 ^ w) :
    (padDigits w n).length = w := by
  have hlen : (hexDigitsRev n).length ≤ w := hexDigitsRev_length_le w n h2
  unfold padDigits
  by_cases h : (hexDigitsRev n).reverse = []
  · simp [h]; omega
  · have : (hexDigitsRev n).reverse.length = (hexDigitsRev n).length :=
      List.length_reverse _
    simp [h]
    omega

lemma mem_padDigits_lt (w n : Nat) : ∀ d ∈ padDigits w n, d < 16 := by
  intro d hd
  simp only [padDigits] at hd
  by_cases h : (hexDigitsRev n).reverse = []
  · rw [if_pos h] at hd
    rcases List.mem_append.mp hd with h' | h'
    · have := List.eq_of_mem_replicate h'; omega
    · simp at h'; omega
  · rw [if_neg h] at hd
    rcases List.mem_append.mp hd with h' | h'
    · have := List.eq_of_mem_replicate h'; omega
    · exact mem_hexDigitsRev_lt n d (List.mem_reverse.mp h')

lemma hexDigitsRev_val :
    ∀ n : Nat, (hexDigitsRev n).reverse.foldl (fun a d => a * 16 + d) 0 = n := by
  intro n
  induction n using Nat.strong_induction_on with
  | _ n ih =>
    by_cases h0 : n = 0
    · simp [h0, hexDigitsRev_zero]
    · rw [hexDigitsRev_eq n h0, List.reverse_cons, List.foldl_append,
        ih (n / 16) (by omega)]
      simp
      omega

lemma foldl_replicate_zero :
    ∀ (k : Nat) (B : List Nat),
      (List.replicate k 0 ++ B).foldl (fun a d => a * 16 + d) 0 =
        B.foldl (fun a d => a * 16 + d) 0 := by
  intro k
  induction k with
  | zero => intro B; rfl
  | succ m ih =>
    intro B
    rw [List.replicate_succ, List.cons_append]
    exact ih B

lemma padDigits_val (w n : Nat) :
    (padDigits w n).foldl (fun a d => a * 16 + d) 0 = n := by
  simp only [padDigits]
  by_cases h : (hexDigitsRev n).reverse = []
  · have h0 : n = 0 := by
      have := (hexDigitsRev_nil_iff n).mp (by simpa using h)
      exact this
    rw [if_pos h, foldl_replicate_zero, h0]
    rfl
  · rw [if_neg h, foldl_replicate_zero, hexDigitsRev_val n]

lemma hexDigitVal_toHexDigit : ∀ d, d < 16 → hexDigitVal (toHexDigit d) = some d := by
  decide

lemma toHexDigit_lt : ∀ d, d < 16 → toHexDigit d < 256 := by decide

lemma foldlM_hex (ds : List Nat) :
    ∀ acc : Nat, (∀ d ∈ ds, d < 16) →
      (ds.map toHexDigit).foldlM
          (fun acc c => (hexDigitVal c).map (fun d => acc * 16 + d)) acc =
        some (ds.foldl (fun a d => a * 16 + d) acc) := by
  induction ds with
  | nil => intro acc _; rfl
  | cons d tl ih =>
    intro acc hmem
    rw [List.map_cons, List.foldlM_cons, hexDigitVal_toHexDigit d (hmem d (by simp))]
    simp only [Option.map_some']
    show Option.bind _ _ = _
    rw [Option.some_bind]
    exact ih (acc * 16 + d) (fun x hx => hmem x (by simp [hx]))

lemma parseHex_map_digits (ds : List Nat) (h : ∀ d ∈ ds, d < 16) (hne : ds ≠ []) :
    parseHex (ds.map toHexDigit) = some (ds.foldl (fun a d => a * 16 + d) 0) := by
  cases ds with
  | nil => exact absurd rfl hne
  | cons d tl =>
    show parseHex (toHexDigit d :: tl.map toHexDigit) = _
    rw [show parseHex (toHexDigit d :: tl.map toHexDigit) =
        ((d :: tl).map toHexDigit).foldlM
          (fun acc c => (hexDigitVal c).map (fun x => acc * 16 + x)) 0 from rfl]
    exact foldlM_hex (d :: tl) 0 h

lemma parseHex_hexFormat (w n : Nat) : parseHex (hexFormat w n) = some n := by
  unfold hexFormat
  rw [parseHex_map_digits (padDigits w n) (mem_padDigits_lt w n) (padDigits_ne_nil w n),
    padDigits_val]

lemma hexFormat_length (w n : Nat) (h1 : 1 ≤ w) (h2 : n < 16 ^ w) :
    (hexFormat w n).length = w := by
  unfold hexFormat
  rw [List.length_map, padDigits_length w n h1 h2]

lemma mem_hexFormat_lt (w n : Nat) : ∀ x ∈ hexFormat w n, x < 256 := by
  intro x hx
  unfold hexFormat at hx
  obtain ⟨d, hd, rfl⟩ := List.mem_map.mp hx
  exact toHexDigit_lt d (mem_padDigits_lt w n d hd)

lemma hexPairs_pair (d1 d0 : Nat) (h1 : d1 < 16) (h0 : d0 < 16) :
    hexPairs [toHexDigit d1, toHexDigit d0] = some [16 * d1 + d0] := by
  unfold hexPairs
  rw [hexDigitVal_toHexDigit d1 h1, hexDigitVal_toHexDigit d0 h0]
  rfl

lemma padDigits_two : ∀ n, n < 256 → padDigits 2 n = [n / 16, n % 16] := by decide

lemma hexFormat_two (n : Nat) (h : n < 256) :
    hexFormat 2 n = [toHexDigit (n / 16), toHexDigit (n % 16)] := by
  unfold hexFormat
  rw [padDigits_two n h]
  rfl

lemma hexPairs_hexFormat_two (n : Nat) (h : n < 256) :
    hexPairs (hexFormat 2 n) = some [n] := by
  rw [hexFormat_two n h, hexPairs_pair (n / 16) (n % 16) (by omega) (by omega)]
  congr 1
  have : 16 * (n / 16) + n % 16 = n := by omega
  rw [this]

lemma hexPairs_map_four (a b c d : Nat) (ha : a < 16) (hb : b < 16)
    (hc : c < 16) (hd : d < 16) :
    hexPairs (List.map toHexDigit [a, b, c, d]) = some [16 * a + b, 16 * c + d] := by
  show hexPairs [toHexDigit a, toHexDigit b, toHexDigit c, toHexDigit d] = _
  unfold hexPairs
  rw [hexDigitVal_toHexDigit a ha, hexDigitVal_toHexDigit b hb]
  unfold hexPairs
  rw [hexDigitVal_toHexDigit c hc, hexDigitVal_toHexDigit d hd]
  rfl

lemma hexPairs_of_four_digits (ds : List Nat) (hlen : ds.length = 4)
    (h : ∀ d ∈ ds, d < 16) :
    ∃ bs, hexPairs (ds.map toHexDigit) = some bs := by
  rcases ds with _ | ⟨a, _ | ⟨b, _ | ⟨c, _ | ⟨d, _ | _⟩⟩⟩⟩ <;> simp_all
  exact ⟨[16 * a + b, 16 * c + d],
    hexPairs_map_four a b c d (by tauto) (by tauto) (by tauto) (by tauto)⟩

lemma hexPairs_hexFormat_four (n : Nat) (h : n < 65536) :
    ∃ bs, hexPairs (hexFormat 4 n) = some bs := by
  unfold hexFormat
  exact hexPairs_of_four_digits (padDigits 4 n)
    (padDigits_length 4 n (by norm_num) (by norm_num; omega)) (mem_padDigits_lt 4 n)

/-! ## Shape of the hardware-frame decode -/

lemma decode_hw_shape (d chk : List Nat) (h4 : chk.length = 4) :
    decode_hw_frame (126 :: (d ++ (chk ++ [13]))) =
      match parseHex chk with
      | none => .error .formatError
      | some v =>
        if get_frame_checksum d = v then .ok d else .error .checksumMismatch := by
  have h1 : (126 :: (d ++ (chk ++ [13]))).length = d.length + 6 := by
    simp [h4]
  unfold decode_hw_frame
  rw [h1]
  have e2 : ((126 :: (d ++ (chk ++ [13]))).drop 1).take (d.length + 6 - 6) = d := by
    show (d ++ (chk ++ [13])).take (d.length + 6 - 6) = d
    have : d.length + 6 - 6 = d.length := by omega
    rw [this]
    exact List.take_left d _
  have e3 : ((126 :: (d ++ (chk ++ [13]))).drop (d.length + 6 - 5)).take 4 = chk := by
    have : d.length + 6 - 5 = d.length + 1 := by omega
    rw [this, List.drop_succ_cons, List.drop_left, ← h4]
    exact List.take_left chk _
  rw [e2, e3]

/-- Closed form: the returned value is `0x10000 - (sum mod 0x10000)`. -/
lemma get_frame_checksum_eq (frame : List Nat) :
    get_frame_checksum frame = 65536 - frame.sum % 65536 := by
  have h : ∀ S : Nat, (((-(S : Int) - 1) % 65536) + 1).toNat = 65536 - S % 65536 := by
    omega
  exact h frame.sum

/-! ## Shape of the header/info decode on a well-formed body -/

lemma drop_onto (l₁ l₂ : List Nat) (n : Nat) (h : l₁.length ≤ n) :
    (l₁ ++ l₂).drop n = l₂.drop (n - l₁.length) := by
  rw [List.drop_append_eq_append_drop, List.drop_eq_nil_of_le h, List.nil_append]

lemma decode_frame_parts (A B C D E I : List Nat)
    (hA : A.length = 2) (hB : B.length = 2) (hC : C.length = 2) (hD : D.length = 2)
    (hE : E.length = 4) :
    decode_frame (A ++ (B ++ (C ++ (D ++ (E ++ I))))) =
      match hexPairs A, hexPairs B, hexPairs C, hexPairs D, hexPairs E, hexPairs I with
      | some v, some a, some c1, some c2, some il, some inf =>
        .ok ⟨v, a, c1, c2, il, inf⟩
      | _, _, _, _, _, _ => .error .formatError := by
  have hlen : (A ++ (B ++ (C ++ (D ++ (E ++ I))))).length = 12 + I.length := by
    simp [hA, hB, hC, hD, hE]
    omega
  have k2 : (A ++ (B ++ (C ++ (D ++ (E ++ I))))).drop 2 = B ++ (C ++ (D ++ (E ++ I))) := by
    rw [← hA]; exact List.drop_left _ _
  have k4 : (A ++ (B ++ (C ++ (D ++ (E ++ I))))).drop 4 = C ++ (D ++ (E ++ I)) := by
    rw [drop_onto _ _ 4 (by omega), hA]
    rw [show (4 : Nat) - 2 = 2 from rfl, ← hB]
    exact List.drop_left _ _
  have k6 : (A ++ (B ++ (C ++ (D ++ (E ++ I))))).drop 6 = D ++ (E ++ I) := by
    rw [drop_onto _ _ 6 (by omega), hA]
    rw [show (6 : Nat) - 2 = 4 from rfl, drop_onto _ _ 4 (by omega), hB]
    rw [show (4 : Nat) - 2 = 2 from rfl, ← hC]
    exact List.drop_left _ _
  have k8 : (A ++ (B ++ (C ++ (D ++ (E ++ I))))).drop 8 = E ++ I := by
    rw [drop_onto _ _ 8 (by omega), hA]
    rw [show (8 : Nat) - 2 = 6 from rfl, drop_onto _ _ 6 (by omega), hB]
    rw [show (6 : Nat) - 2 = 4 from rfl, drop_onto _ _ 4 (by omega), hC]
    rw [show (4 : Nat) - 2 = 2 from rfl, ← hD]
    exact List.drop_left _ _
  have k12 : (A ++ (B ++ (C ++ (D ++ (E ++ I))))).drop 12 = I := by
    rw [drop_onto _ _ 12 (by omega), hA]
    rw [show (12 : Nat) - 2 = 10 from rfl, drop_onto _ _ 10 (by omega), hB]
    rw [show (10 : Nat) - 2 = 8 from rfl, drop_onto _ _ 8 (by omega), hC]
    rw [show (8 : Nat) - 2 = 6 from rfl, drop_onto _ _ 6 (by omega), hD]
    rw [show (6 : Nat) - 2 = 4 from rfl, drop_onto _ _ 4 (by omega), hE]
    rw [show (4 : Nat) - 4 = 0 from rfl, List.drop_zero]
  have e0 : (A ++ (B ++ (C ++ (D ++ (E ++ I))))).take 2 = A := by
    rw [← hA]; exact List.take_left _ _
  have e1 : ((A ++ (B ++ (C ++ (D ++ (E ++ I))))).drop 2).take 2 = B := by
    rw [k2, ← hB]; exact List.take_left _ _
  have e2 : ((A ++ (B ++ (C ++ (D ++ (E ++ I))))).drop 4).take 2 = C := by
    rw [k4, ← hC]; exact List.take_left _ _
  have e3 : ((A ++ (B ++ (C ++ (D ++ (E ++ I))))).drop 6).take 2 = D := by
    rw [k6, ← hD]; exact List.take_left _ _
  have e4 : ((A ++ (B ++ (C ++ (D ++ (E ++ I))))).drop 8).take 4 = E := by
    rw [k8, ← hE]; exact List.take_left _ _
  unfold decode_frame
  rw [if_neg (by rw [hlen]; omega), e0, e1, e2, e3, e4, k12]

/-! ## Claim C1: encode/decode round trip -/

/-- C1 counterexample: `_encode_cmd` appends `info` as raw bytes while
`_decode_frame` hex-decodes the info characters, so the round trip does
not return the original info.  At address 0, command 0x42 and the
two-byte info `"00"` (`[48, 48]`), decoding the encoded frame succeeds
but returns info `[0]`, not `[48, 48]`. -/
theorem decode_encode_not_id :
    decodedTriple (encode_cmd 0 66 [48, 48]) = some ([0], [66], [0]) ∧
      ([0] : List Nat) ≠ [48, 48] := by
  decide

/-- C1 (amended): for every address < 256, command < 256 and info that
is a valid even-length ASCII-hex string (so `bytes.fromhex` gives some
`bs`), provided the length field and the frame checksum both fit in
four hex digits, decoding the encoded frame succeeds, the address and
command round-trip exactly, and the info comes back hex-decoded
(`bs`), not as the original byte string. -/
theorem decode_encode_hex_roundtrip (a c : Nat) (info bs : List Nat)
    (ha : a < 256) (hc : c < 256) (hinfo : hexPairs info = some bs)
    (hlen : get_info_length info < 65536)
    (hchk : get_frame_checksum (frame_body a c info) < 65536) :
    decodedTriple (encode_cmd a c info) = some ([a], [c], bs) := by
  obtain ⟨il, hil⟩ := hexPairs_hexFormat_four (get_info_length info) hlen
  have h2pow : (256 : Nat) = 16 ^ 2 := by norm_num
  have h4pow : (65536 : Nat) = 16 ^ 4 := by norm_num
  have h32 : (hexFormat 2 32).length = 2 :=
    hexFormat_length 2 32 (by norm_num) (by norm_num)
  have hAl : (hexFormat 2 a).length = 2 :=
    hexFormat_length 2 a (by norm_num) (h2pow ▸ ha)
  have h70 : (hexFormat 2 70).length = 2 :=
    hexFormat_length 2 70 (by norm_num) (by norm_num)
  have hCl : (hexFormat 2 c).length = 2 :=
    hexFormat_length 2 c (by norm_num) (h2pow ▸ hc)
  have hEl : (hexFormat 4 (get_info_length info)).length = 4 :=
    hexFormat_length 4 _ (by norm_num) (h4pow ▸ hlen)
  have hKl : (hexFormat 4 (get_frame_checksum (frame_body a c info))).length = 4 :=
    hexFormat_length 4 _ (by norm_num) (h4pow ▸ hchk)
  have hshape : encode_cmd a c info =
      126 :: (frame_body a c info ++
        (hexFormat 4 (get_frame_checksum (frame_body a c info)) ++ [13])) := by
    unfold encode_cmd
    rw [List.append_assoc]
  have hdec : decode (encode_cmd a c info) = decode_frame (frame_body a c info) := by
    unfold decode
    rw [hshape, decode_hw_shape _ _ hKl, parseHex_hexFormat]
    simp
  have hassoc : frame_body a c info =
      hexFormat 2 32 ++ (hexFormat 2 a ++ (hexFormat 2 70 ++ (hexFormat 2 c ++
        (hexFormat 4 (get_info_length info) ++ info)))) := by
    unfold frame_body
    simp [List.append_assoc]
  have hfr : decode_frame (frame_body a c info) =
      .ok ⟨[32], [a], [70], [c], il, bs⟩ := by
    rw [hassoc, decode_frame_parts _ _ _ _ _ _ h32 hAl h70 hCl hEl,
      hexPairs_hexFormat_two 32 (by norm_num), hexPairs_hexFormat_two a ha,
      hexPairs_hexFormat_two 70 (by norm_num), hexPairs_hexFormat_two c hc,
      hil, hinfo]
  unfold decodedTriple
  rw [hdec, hfr]

/-- Witness for C1 (amended): address 0, command 0x42, info `"00"`
round-trips to `([0], [66], [0])` — the info hex-decoded. -/
theorem decode_encode_hex_roundtrip_witness :
    decodedTriple (encode_cmd 0 66 [48, 48]) = some ([0], [66], [0]) :=
  decode_encode_hex_roundtrip 0 66 [48, 48] [0] (by decide) (by decide)
    (by decide) (by decide) (by decide)

/-! ## Claim C5: tamper detection -/

lemma sum_set_add (l : List Nat) (j v : Nat) (h : j < l.length) :
    (l.set j v).sum + l.get ⟨j, h⟩ = l.sum + v := by
  induction l generalizing j with
  | nil => simp at h
  | cons x xs ih =>
    cases j with
    | zero => simp [List.set]; omega
    | succ k =>
      simp only [List.set, List.sum_cons, List.get]
      have := ih k (by simpa using h)
      omega

lemma mem_frame_body_lt (a c : Nat) (info : List Nat)
    (hinfo : ∀ b ∈ info, b < 256) :
    ∀ x ∈ frame_body a c info, x < 256 := by
  intro x hx
  unfold frame_body at hx
  simp only [List.append_assoc, List.mem_append] at hx
  rcases hx with h | h | h | h | h | h
  · exact mem_hexFormat_lt 2 32 x h
  · exact mem_hexFormat_lt 2 a x h
  · exact mem_hexFormat_lt 2 70 x h
  · exact mem_hexFormat_lt 2 c x h
  · exact mem_hexFormat_lt 4 _ x h
  · exact hinfo x h

/-- C5 counterexample: the hardware decode never inspects the leading
`'~'` (`raw_frame[0]` is simply sliced off), so changing it to another
byte (here `'X'` = 88) leaves the checksum verification untouched and
the whole decode still succeeds — it does not fail with a checksum
mismatch as the claim requires for every non-checksum position. -/
theorem tamper_tilde_undetected :
    (encode_cmd 0 66 [])[0]? = some 126 ∧ (88 : Nat) ≠ 126 ∧
      decode ((encode_cmd 0 66 []).set 0 88) =
        .ok ⟨[32], [0], [70], [66], [0, 0], []⟩ := by
  decide

/-- C5 (amended): changing any single byte of the checksum-protected
region — the header characters and the info bytes, i.e. positions
`1 .. len-6` of the encoded frame, but not the leading `'~'`, the four
checksum characters or the trailing CR — to any different byte value
makes `decode` fail with a checksum mismatch.  (Flipping the `'~'` or
the CR goes entirely undetected, see the counterexample.) -/
theorem tamper_in_body_detected (a c : Nat) (info : List Nat) (j v : Nat)
    (hinfo : ∀ b ∈ info, b < 256)
    (hchk : get_frame_checksum (frame_body a c info) < 65536)
    (hj : j < (frame_body a c info).length)
    (hv : v < 256)
    (hne : v ≠ (frame_body a c info).get ⟨j, hj⟩) :
    decode ((encode_cmd a c info).set (j + 1) v) = .error .checksumMismatch := by
  have h4pow : (65536 : Nat) = 16 ^ 4 := by norm_num
  have hKl : (hexFormat 4 (get_frame_checksum (frame_body a c info))).length = 4 :=
    hexFormat_length 4 _ (by norm_num) (h4pow ▸ hchk)
  have hset : (encode_cmd a c info).set (j + 1) v =
      126 :: ((frame_body a c info).set j v ++
        (hexFormat 4 (get_frame_checksum (frame_body a c info)) ++ [13])) := by
    unfold encode_cmd
    rw [List.append_assoc]
    show (126 :: _).set (j + 1) v = _
    rw [List.set_cons_succ, List.set_append_left _ _ hj]
  have hold : (frame_body a c info).get ⟨j, hj⟩ < 256 :=
    mem_frame_body_lt a c info hinfo _ (List.get_mem _ _ _)
  have hsum := sum_set_add (frame_body a c info) j v hj
  have hdiff : get_frame_checksum ((frame_body a c info).set j v) ≠
      get_frame_checksum (frame_body a c info) := by
    rw [get_frame_checksum_eq, get_frame_checksum_eq]
    generalize hs1 : ((frame_body a c info).set j v).sum = s1 at hsum
    generalize hs2 : (frame_body a c info).sum = s2 at hsum
    generalize ho : (frame_body a c info).get ⟨j, hj⟩ = o at hsum hne hold
    omega
  unfold decode
  rw [hset, decode_hw_shape _ _ hKl, parseHex_hexFormat]
  simp [hdiff]

/-- Witness for C5 (amended): flipping the first header character of
the frame for `(0, 0x42, b"")` from `'2'` to `'3'` is detected. -/
theorem tamper_in_body_detected_witness :
    decode ((encode_cmd 0 66 []).set 1 51) = .error .checksumMismatch :=
  tamper_in_body_detected 0 66 [] 0 51 (by decide) (by decide) (by decide)
    (by decide) (by decide)

/-! ## Claim C9: behaviour of encode on over-long info -/

/-- C9 counterexample: `get_info_length` performs no range check, and
`_encode_cmd` never fails.  For a 4096-byte info the 12-bit length
cannot hold the length (`get_info_length` returns 0x11000, emitted as
five hex digits), yet encode still produces a complete `'~'`-to-CR
frame of 4115 bytes instead of failing. -/
theorem encode_no_length_check :
    get_info_length (List.replicate 4096 48) = 69632 ∧
      ¬ get_info_length (List.replicate 4096 48) < 65536 ∧
      (encode_cmd 0 66 (List.replicate 4096 48)).length = 4115 ∧
      (encode_cmd 0 66 (List.replicate 4096 48)).head? = some 126 ∧
      (encode_cmd 0 66 (List.replicate 4096 48)).getLast? = some 13 := by
  have hgil : get_info_length (List.replicate (α := Nat) 4096 48) = 69632 := by
    simp only [get_info_length, List.length_replicate]
    decide
  have hsum : (frame_body 0 66 (List.replicate 4096 48)).sum = 197252 := by
    unfold frame_body
    rw [hgil]
    simp only [List.sum_append, List.sum_replicate, smul_eq_mul]
    decide
  have hchk : get_frame_checksum (frame_body 0 66 (List.replicate 4096 48)) = 64892 := by
    rw [get_frame_checksum_eq, hsum]
  have hbody : (frame_body 0 66 (List.replicate 4096 48)).length = 4109 := by
    unfold frame_body
    rw [hgil]
    simp only [List.length_append, List.length_replicate]
    decide
  refine ⟨hgil, by omega, ?_, rfl, ?_⟩
  · show (126 :: (frame_body 0 66 (List.replicate 4096 48) ++
        hexFormat 4 (get_frame_checksum (frame_body 0 66 (List.replicate 4096 48))) ++
        [13])).length = 4115
    rw [hchk]
    simp only [List.length_cons, List.length_append, hbody]
    decide
  · show (126 :: (frame_body 0 66 (List.replicate 4096 48) ++
        hexFormat 4 (get_frame_checksum (frame_body 0 66 (List.replicate 4096 48))) ++
        [13])).getLast? = some 13
    rw [← List.cons_append, List.getLast?_concat]

/-- C9 (amended): for every info payload longer than 4095 bytes, encode
does not fail: it still returns a complete frame (leading `'~'`,
trailing CR).  The 12-bit length field cannot represent such a length —
the low 12 bits of the computed length field equal `len mod 4096`,
which differs from the true length — so the frame misrepresents the
info length rather than being rejected with an error. -/
theorem encode_overlong_info_malformed (a c : Nat) (info : List Nat)
    (h : 4095 < info.length) :
    (encode_cmd a c info).head? = some 126 ∧
      (encode_cmd a c info).getLast? = some 13 ∧
      get_info_length info % 4096 = info.length % 4096 ∧
      info.length % 4096 ≠ info.length := by
  refine ⟨rfl, ?_, ?_, by omega⟩
  · show (126 :: (frame_body a c info ++
        hexFormat 4 (get_frame_checksum (frame_body a c info)) ++ [13])).getLast? =
      some 13
    rw [← List.cons_append, List.getLast?_concat]
  · simp only [get_info_length]
    rw [if_neg (by omega)]
    have hn : lenNibbleSum info.length =
        info.length % 16 + info.length / 16 % 16 + info.length / 256 % 16 := rfl
    rw [hn]
    generalize info.length % 16 + info.length / 16 % 16 + info.length / 256 % 16 = s
    omega

/-- Witness for C9 (amended) at the concrete 4096-byte payload. -/
theorem encode_overlong_info_malformed_witness :
    (encode_cmd 0 66 (List.replicate 4096 48)).head? = some 126 ∧
      (encode_cmd 0 66 (List.replicate 4096 48)).getLast? = some 13 ∧
      get_info_length (List.replicate 4096 48) % 4096 =
        (List.replicate (α := Nat) 4096 48).length % 4096 ∧
      (List.replicate (α := Nat) 4096 48).length % 4096 ≠
        (List.replicate (α := Nat) 4096 48).length :=
  encode_overlong_info_malformed 0 66 (List.replicate 4096 48)
    (by simp only [List.length_replicate]; decide)

/-! ## Claim C10: the checksum only depends on the multiset of bytes -/

/-- C10: `get_frame_checksum` depends only on the byte sum, hence is
invariant under every permutation of its input; consequently the
checksum verification of `_decode_hw_frame` accepts any reordering of
the checksum-protected bytes of a frame it accepts. -/
theorem checksum_permutation_invariant :
    (∀ b b' : List Nat, b.Perm b' →
      get_frame_checksum b = get_frame_checksum b') ∧
    (∀ d d' chkl : List Nat, d.Perm d' → chkl.length = 4 →
      decode_hw_frame (126 :: (d ++ (chkl ++ [13]))) = .ok d →
      decode_hw_frame (126 :: (d' ++ (chkl ++ [13]))) = .ok d') := by
  have hperm : ∀ b b' : List Nat, b.Perm b' →
      get_frame_checksum b = get_frame_checksum b' := by
    intro b b' h
    rw [get_frame_checksum_eq, get_frame_checksum_eq, h.sum_eq]
  refine ⟨hperm, ?_⟩
  intro d d' chkl hp h4 hok
  rw [decode_hw_shape d chkl h4] at hok
  rw [decode_hw_shape d' chkl h4]
  cases hv : parseHex chkl with
  | none => rw [hv] at hok; exact absurd hok (by simp)
  | some v =>
    rw [hv] at hok
    by_cases he : get_frame_checksum d = v
    · have hd2 : get_frame_checksum d' = v := by rw [← hperm d d' hp]; exact he
      simp [hd2]
    · simp [he] at hok

/-- Witness for C10: the two-byte data `"01"` reordered to `"10"` under
the original checksum is still accepted by the hardware decode. -/
theorem checksum_permutation_invariant_witness :
    decode_hw_frame
        (126 :: ([49, 48] ++ (hexFormat 4 (get_frame_checksum [48, 49]) ++ [13]))) =
      .ok [49, 48] :=
  checksum_permutation_invariant.2 [48, 49] [49, 48]
    (hexFormat 4 (get_frame_checksum [48, 49])) (by decide) (by decide) (by decide)

/-! ## Byte consumption of the payload readers -/

lemma readByte_len {c : List Nat} {v : Nat} {r : List Nat}
    (h : readByte c = some (v, r)) : c.length = r.length + 1 := by
  cases c with
  | nil => simp [readByte] at h
  | cons x xs =>
    simp [readByte] at h
    obtain ⟨-, rfl⟩ := h
    simp

lemma readInt16ub_len {c : List Nat} {v : Nat} {r : List Nat}
    (h : readInt16ub c = some (v, r)) : c.length = r.length + 2 := by
  rcases c with _ | ⟨a, _ | ⟨b, tl⟩⟩ <;> simp [readInt16ub] at h
  obtain ⟨-, rfl⟩ := h
  simp

lemma readInt16sb_len {c : List Nat} {v : Int} {r : List Nat}
    (h : readInt16sb c = some (v, r)) : c.length = r.length + 2 := by
  rcases c with _ | ⟨a, _ | ⟨b, tl⟩⟩ <;> simp [readInt16sb] at h
  obtain ⟨-, rfl⟩ := h
  simp

lemma readInt24ub_len {c : List Nat} {v : Nat} {r : List Nat}
    (h : readInt24ub c = some (v, r)) : c.length = r.length + 3 := by
  rcases c with _ | ⟨a, _ | ⟨b, _ | ⟨d, tl⟩⟩⟩ <;> simp [readInt24ub] at h
  obtain ⟨-, rfl⟩ := h
  simp

lemma readVoltS_len {c : List Nat} {q : ℚ} {r : List Nat}
    (h : readVoltS c = some (q, r)) : c.length = r.length + 2 := by
  unfold readVoltS at h
  cases hs : readInt16sb c with
  | none => rw [hs] at h; exact absurd h (by simp)
  | some x =>
    rw [hs] at h
    obtain ⟨w, tl⟩ := x
    simp only [Option.some.injEq, Prod.mk.injEq] at h
    obtain ⟨-, rfl⟩ := h
    exact readInt16sb_len hs

lemma readVoltU_len {c : List Nat} {q : ℚ} {r : List Nat}
    (h : readVoltU c = some (q, r)) : c.length = r.length + 2 := by
  unfold readVoltU at h
  cases hs : readInt16ub c with
  | none => rw [hs] at h; exact absurd h (by simp)
  | some x =>
    rw [hs] at h
    obtain ⟨w, tl⟩ := x
    simp only [Option.some.injEq, Prod.mk.injEq] at h
    obtain ⟨-, rfl⟩ := h
    exact readInt16ub_len hs

lemma readCelsius_len {c : List Nat} {q : ℚ} {r : List Nat}
    (h : readCelsius c = some (q, r)) : c.length = r.length + 2 := by
  unfold readCelsius at h
  cases hs : readInt16sb c with
  | none => rw [hs] at h; exact absurd h (by simp)
  | some x =>
    rw [hs] at h
    obtain ⟨w, tl⟩ := x
    simp only [Option.some.injEq, Prod.mk.injEq] at h
    obtain ⟨-, rfl⟩ := h
    exact readInt16sb_len hs

lemma readAmp_len {c : List Nat} {q : ℚ} {r : List Nat}
    (h : readAmp c = some (q, r)) : c.length = r.length + 2 := by
  unfold readAmp at h
  cases hs : readInt16sb c with
  | none => rw [hs] at h; exact absurd h (by simp)
  | some x =>
    rw [hs] at h
    obtain ⟨w, tl⟩ := x
    simp only [Option.some.injEq, Prod.mk.injEq] at h
    obtain ⟨-, rfl⟩ := h
    exact readInt16sb_len hs

lemma readCap16_len {c : List Nat} {q : ℚ} {r : List Nat}
    (h : readCap16 c = some (q, r)) : c.length = r.length + 2 := by
  unfold readCap16 at h
  cases hs : readInt16ub c with
  | none => rw [hs] at h; exact absurd h (by simp)
  | some x =>
    rw [hs] at h
    obtain ⟨w, tl⟩ := x
    simp only [Option.some.injEq, Prod.mk.injEq] at h
    obtain ⟨-, rfl⟩ := h
    exact readInt16ub_len hs

lemma readCap24_len {c : List Nat} {q : ℚ} {r : List Nat}
    (h : readCap24 c = some (q, r)) : c.length = r.length + 3 := by
  unfold readCap24 at h
  cases hs : readInt24ub c with
  | none => rw [hs] at h; exact absurd h (by simp)
  | some x =>
    rw [hs] at h
    obtain ⟨w, tl⟩ := x
    simp only [Option.some.injEq, Prod.mk.injEq] at h
    obtain ⟨-, rfl⟩ := h
    exact readInt24ub_len hs

lemma readN_len {α : Type} {rd : List Nat → Option (α × List Nat)} {k : Nat}
    (hrd : ∀ {c : List Nat} {v : α} {r : List Nat},
      rd c = some (v, r) → c.length = r.length + k) :
    ∀ (n : Nat) (c : List Nat) (xs : List α) (r : List Nat),
      readN rd n c = some (xs, r) → c.length = r.length + k * n := by
  intro n
  induction n with
  | zero =>
    intro c xs r h
    simp [readN] at h
    obtain ⟨-, rfl⟩ := h
    simp
  | succ n ih =>
    intro c xs r h
    unfold readN at h
    cases h1 : rd c with
    | none => rw [h1] at h; exact absurd h (by simp)
    | some x =>
      rw [h1] at h
      obtain ⟨v, c1⟩ := x
      dsimp only at h
      cases h2 : readN rd n c1 with
      | none => rw [h2] at h; exact absurd h (by simp)
      | some y =>
        rw [h2] at h
        obtain ⟨ys, c2⟩ := y
        simp only [Option.some.injEq, Prod.mk.injEq] at h
        obtain ⟨-, rfl⟩ := h
        have e1 := hrd h1
        have e2 := ih c1 ys c2 h2
        rw [Nat.mul_succ]
        omega

lemma readN_mem {α : Type} {rd : List Nat → Option (α × List Nat)} :
    ∀ (n : Nat) (c : List Nat) (xs : List α) (r : List Nat),
      readN rd n c = some (xs, r) →
      ∀ x ∈ xs, ∃ c1 r1, rd c1 = some (x, r1) := by
  intro n
  induction n with
  | zero =>
    intro c xs r h
    simp [readN] at h
    obtain ⟨rfl, -⟩ := h
    intro x hx
    exact absurd hx (List.not_mem_nil x)
  | succ n ih =>
    intro c xs r h
    unfold readN at h
    cases h1 : rd c with
    | none => rw [h1] at h; exact absurd h (by simp)
    | some x0 =>
      rw [h1] at h
      obtain ⟨v, c1⟩ := x0
      dsimp only at h
      cases h2 : readN rd n c1 with
      | none => rw [h2] at h; exact absurd h (by simp)
      | some y =>
        rw [h2] at h
        obtain ⟨ys, c2⟩ := y
        simp only [Option.some.injEq, Prod.mk.injEq] at h
        obtain ⟨rfl, -⟩ := h
        intro x hx
        rcases List.mem_cons.mp hx with rfl | hx2
        · exact ⟨c, c1, h1⟩
        · exact ih c1 ys c2 h2 x hx2

/-! ## Master specification of the module parse -/

lemma parseModule_spec (c0 : List Nat) (m : ModuleData) (rest : List Nat)
    (h : parseModule c0 = some (m, rest)) :
    m.Power = m.Current * m.Voltage ∧
    (m.OptionalFields.isSome ↔ 2 < m.UserDefinedItems) ∧
    (¬ 2 < m.UserDefinedItems →
      m.OptionalFields = none ∧ m.RemainingCapacity = m.RemainingCapacity1 ∧
      m.TotalCapacity = m.TotalCapacity1) ∧
    (2 < m.UserDefinedItems →
      ∃ r2 t2, m.OptionalFields = some (r2, t2) ∧
        m.RemainingCapacity = r2 ∧ m.TotalCapacity = t2) ∧
    c0.length = rest.length + 15 + 2 * m.NumberOfCells +
      2 * (m.NumberOfTemperatures - 1) +
      (if 2 < m.UserDefinedItems then 6 else 0) := by
  unfold parseModule at h
  cases h1 : readByte c0 with
  | none => rw [h1] at h; exact absurd h (by simp)
  | some x1 =>
  rw [h1] at h
  obtain ⟨nCells, c1⟩ := x1
  dsimp only at h
  cases h2 : readN readVoltS nCells c1 with
  | none => rw [h2] at h; exact absurd h (by simp)
  | some x2 =>
  rw [h2] at h
  obtain ⟨cellVoltages, c2⟩ := x2
  dsimp only at h
  cases h3 : readByte c2 with
  | none => rw [h3] at h; exact absurd h (by simp)
  | some x3 =>
  rw [h3] at h
  obtain ⟨nTemps, c3⟩ := x3
  dsimp only at h
  cases h4 : readCelsius c3 with
  | none => rw [h4] at h; exact absurd h (by simp)
  | some x4 =>
  rw [h4] at h
  obtain ⟨avgTemp, c4⟩ := x4
  dsimp only at h
  by_cases hT : nTemps = 0
  · rw [if_pos hT] at h
    exact absurd h (by simp)
  rw [if_neg hT] at h
  cases h5 : readN readCelsius (nTemps - 1) c4 with
  | none => rw [h5] at h; exact absurd h (by simp)
  | some x5 =>
  rw [h5] at h
  obtain ⟨groupedTemps, c5⟩ := x5
  dsimp only at h
  cases h6 : readAmp c5 with
  | none => rw [h6] at h; exact absurd h (by simp)
  | some x6 =>
  rw [h6] at h
  obtain ⟨current, c6⟩ := x6
  dsimp only at h
  cases h7 : readVoltU c6 with
  | none => rw [h7] at h; exact absurd h (by simp)
  | some x7 =>
  rw [h7] at h
  obtain ⟨voltage, c7⟩ := x7
  dsimp only at h
  cases h8 : readCap16 c7 with
  | none => rw [h8] at h; exact absurd h (by simp)
  | some x8 =>
  rw [h8] at h
  obtain ⟨remCap1, c8⟩ := x8
  dsimp only at h
  cases h9 : readByte c8 with
  | none => rw [h9] at h; exact absurd h (by simp)
  | some x9 =>
  rw [h9] at h
  obtain ⟨udi, c9⟩ := x9
  dsimp only at h
  cases h10 : readCap16 c9 with
  | none => rw [h10] at h; exact absurd h (by simp)
  | some x10 =>
  rw [h10] at h
  obtain ⟨totCap1, c10⟩ := x10
  dsimp only at h
  cases h11 : readInt16ub c10 with
  | none => rw [h11] at h; exact absurd h (by simp)
  | some x11 =>
  rw [h11] at h
  obtain ⟨cyc, c11⟩ := x11
  simp only [Option.some_bind] at h
  have e1 := readByte_len h1
  have e2 := readN_len (fun {c v r} hh => readVoltS_len hh) nCells c1 cellVoltages c2 h2
  have e3 := readByte_len h3
  have e4 := readCelsius_len h4
  have e5 := readN_len (fun {c v r} hh => readCelsius_len hh) (nTemps - 1) c4
    groupedTemps c5 h5
  have e6 := readAmp_len h6
  have e7 := readVoltU_len h7
  have e8 := readCap16_len h8
  have e9 := readByte_len h9
  have e10 := readCap16_len h10
  have e11 := readInt16ub_len h11
  by_cases hudi : 2 < udi
  · rw [if_pos hudi] at h
    cases ha : readCap24 c11 with
    | none => rw [ha] at h; exact absurd h (by simp)
    | some xa =>
    rw [ha] at h
    obtain ⟨r2, ca⟩ := xa
    dsimp only at h
    cases hb : readCap24 ca with
    | none => rw [hb] at h; exact absurd h (by simp)
    | some xb =>
    rw [hb] at h
    obtain ⟨t2, cb⟩ := xb
    dsimp only at h
    simp only [Option.some.injEq, Prod.mk.injEq] at h
    obtain ⟨hm, hrest⟩ := h
    have ea := readCap24_len ha
    have eb := readCap24_len hb
    subst hm
    subst hrest
    refine ⟨rfl, by simp [hudi], fun hx => absurd hudi hx,
      fun _ => ⟨r2, t2, rfl, rfl, rfl⟩, ?_⟩
    simp only [if_pos hudi]
    omega
  · rw [if_neg hudi] at h
    simp only [Option.some.injEq, Prod.mk.injEq] at h
    obtain ⟨hm, hrest⟩ := h
    subst hm
    subst hrest
    refine ⟨rfl, by simp [hudi], fun _ => ⟨rfl, rfl, rfl⟩,
      fun hx => absurd hx hudi, ?_⟩
    simp only [if_neg hudi]
    omega

/-! ## Claim C6: capacity variant selection -/

/-- C6: in a successful module decode, the extended capacity block is
present (and its two values are the reported capacities) iff
`_UserDefinedItems > 2`.  With `_UserDefinedItems = 2` no extra bytes
are consumed and the legacy 16-bit values are reported; with
`_UserDefinedItems = 3` exactly 6 additional bytes (two 24-bit fields)
are consumed and their values are reported, ignoring the legacy ones.
Here `15 + 2·cells + 2·(temps−1)` is the byte count of the fixed fields
and count-driven arrays preceding the optional block. -/
theorem capacity_variant_selection (c0 : List Nat) (m : ModuleData) (rest : List Nat)
    (h : parseModule c0 = some (m, rest)) :
    (m.OptionalFields.isSome ↔ 2 < m.UserDefinedItems) ∧
    (m.UserDefinedItems = 2 →
      m.OptionalFields = none ∧
      m.RemainingCapacity = m.RemainingCapacity1 ∧
      m.TotalCapacity = m.TotalCapacity1 ∧
      c0.length = rest.length + 15 + 2 * m.NumberOfCells +
        2 * (m.NumberOfTemperatures - 1)) ∧
    (m.UserDefinedItems = 3 →
      ∃ r2 t2, m.OptionalFields = some (r2, t2) ∧
        m.RemainingCapacity = r2 ∧ m.TotalCapacity = t2 ∧
        c0.length = rest.length + 21 + 2 * m.NumberOfCells +
          2 * (m.NumberOfTemperatures - 1)) := by
  obtain ⟨-, hiff, hle, hgt, hlen⟩ := parseModule_spec c0 m rest h
  refine ⟨hiff, ?_, ?_⟩
  · intro h2
    have hnot : ¬ 2 < m.UserDefinedItems := by omega
    obtain ⟨ho, hr, ht⟩ := hle hnot
    rw [if_neg hnot] at hlen
    exact ⟨ho, hr, ht, by omega⟩
  · intro h3
    have hgt2 : 2 < m.UserDefinedItems := by omega
    obtain ⟨r2, t2, ho, hr, ht⟩ := hgt hgt2
    rw [if_pos hgt2] at hlen
    exact ⟨r2, t2, ho, hr, ht, by omega⟩

/-- Witness for C6 at the concrete 21-byte module `extCapBytes`
(`_UserDefinedItems = 3`, 24-bit capacities 50000 and 100000). -/
theorem capacity_variant_selection_witness :
    (extCapModule.OptionalFields.isSome ↔ 2 < extCapModule.UserDefinedItems) ∧
    (extCapModule.UserDefinedItems = 2 →
      extCapModule.OptionalFields = none ∧
      extCapModule.RemainingCapacity = extCapModule.RemainingCapacity1 ∧
      extCapModule.TotalCapacity = extCapModule.TotalCapacity1 ∧
      extCapBytes.length = List.length ([] : List Nat) + 15 +
        2 * extCapModule.NumberOfCells +
        2 * (extCapModule.NumberOfTemperatures - 1)) ∧
    (extCapModule.UserDefinedItems = 3 →
      ∃ r2 t2, extCapModule.OptionalFields = some (r2, t2) ∧
        extCapModule.RemainingCapacity = r2 ∧ extCapModule.TotalCapacity = t2 ∧
        extCapBytes.length = List.length ([] : List Nat) + 21 +
          2 * extCapModule.NumberOfCells +
          2 * (extCapModule.NumberOfTemperatures - 1)) :=
  capacity_variant_selection extCapBytes extCapModule [] rfl

/-! ## Claims C7 and C8: aggregate fields and the zero-capacity divisor -/

lemma parse_values_body_spec (info : List Nat) (n : Nat) (mods : List ModuleData)
    (h : parse_values_body info = some (n, mods)) :
    ∃ c1 c2, readByte info = some (n, c1) ∧ readN parseModule n c1 = some (mods, c2) := by
  unfold parse_values_body at h
  cases h1 : readByte info with
  | none => rw [h1] at h; exact absurd h (by simp)
  | some x1 =>
    rw [h1] at h
    obtain ⟨n0, c1⟩ := x1
    simp only [Option.pure_def, Option.bind_eq_bind, Option.some_bind] at h
    cases h2 : readN parseModule n0 c1 with
    | none => rw [h2] at h; exact absurd h (by simp)
    | some x2 =>
      rw [h2] at h
      obtain ⟨mods0, c2⟩ := x2
      simp only [Option.some_bind, Option.some.injEq, Prod.mk.injEq] at h
      obtain ⟨rfl, rfl⟩ := h
      exact ⟨c1, c2, rfl, h2⟩

lemma parse_values_single_body_spec (info : List Nat) (nm : Nat) (m : ModuleData)
    (h : parse_values_single_body info = some (nm, m)) :
    ∃ c1 c2, readByte info = some (nm, c1) ∧ parseModule c1 = some (m, c2) := by
  unfold parse_values_single_body at h
  cases h1 : readByte info with
  | none => rw [h1] at h; exact absurd h (by simp)
  | some x1 =>
    rw [h1] at h
    obtain ⟨n0, c1⟩ := x1
    simp only [Option.pure_def, Option.bind_eq_bind, Option.some_bind] at h
    cases h2 : parseModule c1 with
    | none => rw [h2] at h; exact absurd h (by simp)
    | some x2 =>
      rw [h2] at h
      obtain ⟨m0, c2⟩ := x2
      simp only [Option.some_bind, Option.some.injEq, Prod.mk.injEq] at h
      obtain ⟨rfl, rfl⟩ := h
      exact ⟨c1, c2, rfl, h2⟩

/-- C7: every successfully decoded multi-module report has
`TotalPower = Σ module.Power` and
`StateOfCharge = Σ RemainingCapacity / Σ TotalCapacity`, with each
module's `Power = Current × Voltage`; a single-module report has
`TotalPower = Power` and `StateOfCharge = RemainingCapacity /
TotalCapacity`.  On the concrete two-module payload with remaining
capacities 50/30 and total capacities 100/100 the state of charge is
`2/5 = 0.4`. -/
theorem aggregate_power_soc :
    (∀ (info : List Nat) (r : ValuesReport), parse_get_values info = .ok r →
      r.TotalPower = (r.Module.map (fun m => m.Power)).sum ∧
      r.StateOfCharge = (r.Module.map (fun m => m.RemainingCapacity)).sum /
        (r.Module.map (fun m => m.TotalCapacity)).sum ∧
      ∀ m ∈ r.Module, m.Power = m.Current * m.Voltage) ∧
    (∀ (info : List Nat) (r : SingleValuesReport),
      parse_get_values_single info = .ok r →
      r.TotalPower = r.Module.Power ∧
      r.StateOfCharge = r.Module.RemainingCapacity / r.Module.TotalCapacity ∧
      r.Module.Power = r.Module.Current * r.Module.Voltage) ∧
    (parse_get_values socPayload = .ok socReport ∧
      socReport.Module.map (fun m => m.RemainingCapacity) = [50, 30] ∧
      socReport.Module.map (fun m => m.TotalCapacity) = [100, 100] ∧
      socReport.StateOfCharge = 2 / 5) := by
  refine ⟨?_, ?_, ?_⟩
  · intro info r h
    unfold parse_get_values at h
    cases hb : parse_values_body info with
    | none => rw [hb] at h; exact absurd h (by simp)
    | some x =>
      rw [hb] at h
      obtain ⟨n, mods⟩ := x
      dsimp only at h
      by_cases hz : (mods.map (fun m => m.TotalCapacity)).sum = 0
      · rw [if_pos hz] at h; exact absurd h (by simp)
      · rw [if_neg hz] at h
        simp only [Except.ok.injEq] at h
        subst h
        refine ⟨rfl, rfl, ?_⟩
        intro m hm
        obtain ⟨c1, c2, h1, h2⟩ := parse_values_body_spec info n mods hb
        obtain ⟨cm, rm, hpm⟩ := readN_mem n c1 mods c2 h2 m hm
        exact (parseModule_spec cm m rm hpm).1
  · intro info r h
    unfold parse_get_values_single at h
    cases hb : parse_values_single_body info with
    | none => rw [hb] at h; exact absurd h (by simp)
    | some x =>
      rw [hb] at h
      obtain ⟨nm, m⟩ := x
      dsimp only at h
      by_cases hz : m.TotalCapacity = 0
      · rw [if_pos hz] at h; exact absurd h (by simp)
      · rw [if_neg hz] at h
        simp only [Except.ok.injEq] at h
        subst h
        refine ⟨rfl, rfl, ?_⟩
        obtain ⟨c1, c2, h1, h2⟩ := parse_values_single_body_spec info nm m hb
        exact (parseModule_spec c1 m c2 h2).1
  · have h0 : parse_get_values socPayload =
        (if ([extCapModule, socModule2].map (fun m => m.TotalCapacity)).sum = 0
          then .error .divisionByZero else .ok socReport) := rfl
    have hden : ([extCapModule, socModule2].map (fun m => m.TotalCapacity)).sum ≠ 0 := by
      norm_num [extCapModule, socModule2, DivideBy1000]
    rw [h0, if_neg hden]
    refine ⟨rfl, ?_, ?_, ?_⟩
    · norm_num [socReport, extCapModule, socModule2, DivideBy1000]
    · norm_num [socReport, extCapModule, socModule2, DivideBy1000]
    · norm_num [socReport, extCapModule, socModule2, DivideBy1000]

/-- Witness for C7: the general multi-module part applied to the
concrete payload `socPayload`, using the theorem's own concrete parse
fact to discharge the hypothesis. -/
theorem aggregate_power_soc_witness :
    socReport.TotalPower = (socReport.Module.map (fun m => m.Power)).sum ∧
      socReport.StateOfCharge =
        (socReport.Module.map (fun m => m.RemainingCapacity)).sum /
          (socReport.Module.map (fun m => m.TotalCapacity)).sum ∧
      ∀ m ∈ socReport.Module, m.Power = m.Current * m.Voltage :=
  aggregate_power_soc.1 socPayload socReport aggregate_power_soc.2.2.1

/-- C8: whenever the module section of a values payload parses but the
`StateOfCharge` divisor (`Σ TotalCapacity`, resp. the single module's
`TotalCapacity`) is zero, decoding fails with the division-by-zero
error — Python raises `ZeroDivisionError` from the float division — and
no record (NaN, infinity or partially populated) is produced. -/
theorem soc_zero_capacity_error :
    (∀ (info : List Nat) (n : Nat) (mods : List ModuleData),
      parse_values_body info = some (n, mods) →
      (mods.map (fun m => m.TotalCapacity)).sum = 0 →
      parse_get_values info = .error .divisionByZero) ∧
    (∀ (info : List Nat) (nm : Nat) (m : ModuleData),
      parse_values_single_body info = some (nm, m) →
      m.TotalCapacity = 0 →
      parse_get_values_single info = .error .divisionByZero) := by
  constructor
  · intro info n mods hb hz
    unfold parse_get_values
    rw [hb]
    dsimp only
    rw [if_pos hz]
  · intro info nm m hb hz
    unfold parse_get_values_single
    rw [hb]
    dsimp only
    rw [if_pos hz]

/-- Witness for C8 at a one-module payload whose only total capacity is
zero. -/
theorem soc_zero_capacity_error_witness :
    parse_get_values zeroCapPayload = .error .divisionByZero :=
  soc_zero_capacity_error.1 zeroCapPayload 1 [zeroCapModule] rfl
    (by simp [zeroCapModule, DivideBy1000])


/-- C3: for every byte sequence `b`,
`(sum(b) + get_frame_checksum(b)) mod 0x10000 = 0`. -/
theorem frame_checksum_inverts_sum (b : List Nat) :
    (b.sum + get_frame_checksum b) % 65536 = 0 := by
  rw [get_frame_checksum_eq]
  have h : ∀ S : Nat, (S + (65536 - S % 65536)) % 65536 = 0 := by omega
  exact h b.sum

/-- C2 counterexample: on the empty byte string the byte sum is 0 (a
multiple of 0x10000) and `get_frame_checksum` returns 0x10000, which is
outside 0..0xFFFF and differs from the 16-bit two's-complement negation
of 0 (which is 0). -/
theorem frame_checksum_overflow_at_nil :
    get_frame_checksum [] = 65536 ∧ ¬ get_frame_checksum [] ≤ 65535 ∧
      get_frame_checksum [] ≠ (65536 - (List.sum []) % 65536) % 65536 := by
  decide

/-- C2 (amended): `get_frame_checksum(b) = 0x10000 - (sum(b) mod 0x10000)`,
which lies in 1..0x10000; it equals the 16-bit two's-complement negation
of the byte sum (hence lies in 0..0xFFFF) whenever the byte sum is not a
multiple of 0x10000, and equals 0x10000 when it is. -/
theorem frame_checksum_value (b : List Nat) :
    get_frame_checksum b = 65536 - b.sum % 65536 ∧
      1 ≤ get_frame_checksum b ∧ get_frame_checksum b ≤ 65536 ∧
      (b.sum % 65536 ≠ 0 →
        get_frame_checksum b = (65536 - b.sum % 65536) % 65536 ∧
          get_frame_checksum b ≤ 65535) ∧
      (b.sum % 65536 = 0 → get_frame_checksum b = 65536) := by
  rw [get_frame_checksum_eq]
  have h : ∀ S : Nat, 65536 - S % 65536 = 65536 - S % 65536 ∧
      1 ≤ 65536 - S % 65536 ∧ 65536 - S % 65536 ≤ 65536 ∧
      (S % 65536 ≠ 0 → 65536 - S % 65536 = (65536 - S % 65536) % 65536 ∧
        65536 - S % 65536 ≤ 65535) ∧
      (S % 65536 = 0 → 65536 - S % 65536 = 65536) := by omega
  exact h b.sum

/-- Witness for C2 (amended) at the concrete byte string `[1, 2]`,
whose byte sum 3 is not a multiple of 0x10000. -/
theorem frame_checksum_value_witness :
    get_frame_checksum [1, 2] = (65536 - (List.sum [1, 2]) % 65536) % 65536 ∧
      get_frame_checksum [1, 2] ≤ 65535 :=
  (frame_checksum_value [1, 2]).2.2.2.1 (by decide)

/-! ## Arithmetic facts about the info-length field -/

/-- C4 counterexample: a 121-byte payload has nibble sum 7 + 9 = 16, so
the source's `0b1111 - (16 % 16) + 1` is 16 (not `(15 - 0 + 1) % 16 = 0`):
`get_info_length` returns `(16 << 12) + 121 = 65657`, which exceeds
0xFFFF and differs from the claimed `(0 << 12) | 121 = 121`. -/
theorem info_length_overflow_at_121 :
    get_info_length (List.replicate 121 0) = 65657 ∧
      (65657 : Nat) ≠ (15 - lenNibbleSum 121 % 16 + 1) % 16 * 4096 + 121 ∧
      ¬ get_info_length (List.replicate 121 0) < 65536 := by
  decide

/-- C4 (amended): for a payload of length `L ≤ 4095`: `L = 0` yields 0;
for `1 ≤ L` the result is `(16 - nibbleSum(L) mod 16) << 12 | L` — the
checksum nibble is computed without a final mod 16, so it is 16 (and the
result exceeds 16 bits) exactly when `nibbleSum(L) mod 16 = 0`.  The low
12 bits always recover `L`, the sum of `nibbleSum(L)` and the checksum
value is divisible by 16, and whenever `nibbleSum(L) mod 16 ≠ 0` the
result fits in 16 bits with top nibble `(15 - nibbleSum(L) mod 16 + 1) mod 16`. -/
theorem info_length_value (info : List Nat) (hL : info.length ≤ 4095) :
    (info.length = 0 → get_info_length info = 0) ∧
      (1 ≤ info.length →
        get_info_length info =
          (16 - lenNibbleSum info.length % 16) * 4096 + info.length ∧
        get_info_length info % 4096 = info.length ∧
        (lenNibbleSum info.length + get_info_length info / 4096) % 16 = 0 ∧
        (lenNibbleSum info.length % 16 ≠ 0 →
          get_info_length info < 65536 ∧
          get_info_length info / 4096 =
            (15 - lenNibbleSum info.length % 16 + 1) % 16)) := by
  simp only [get_info_length]
  generalize info.length = L at hL ⊢
  by_cases h0 : L = 0
  · simp [h0]
  · rw [if_neg h0]
    have hn : lenNibbleSum L = L % 16 + L / 16 % 16 + L / 256 % 16 := rfl
    rw [hn]
    generalize L % 16 + L / 16 % 16 + L / 256 % 16 = s
    omega

/-- Witness for C4 (amended) at a concrete 1-byte payload, with the
non-empty branch discharged. -/
theorem info_length_value_witness :
    get_info_length [0] =
        (16 - lenNibbleSum (List.length ([0] : List Nat)) % 16) * 4096 +
          List.length ([0] : List Nat) ∧
      get_info_length [0] % 4096 = List.length ([0] : List Nat) ∧
      (lenNibbleSum (List.length ([0] : List Nat)) +
        get_info_length [0] / 4096) % 16 = 0 ∧
      (lenNibbleSum (List.length ([0] : List Nat)) % 16 ≠ 0 →
        get_info_length [0] < 65536 ∧
        get_info_length [0] / 4096 =
          (15 - lenNibbleSum (List.length ([0] : List Nat)) % 16 + 1) % 16) :=
  (info_length_value [0] (by decide)).2 (by decide)

end Pylontech
